import Mathlib

/-!
# Concurrent traffic simulation: message queue and traffic light

A shallow embedding of `src/TrafficLight.cpp`.

* `MessageQueue T` is the deque guarded by the queue's mutex.  Every member
  function runs under that mutex, so each call is one atomic step on the
  deque.  `receive` waits on the condition variable with the predicate
  "queue not empty"; a call whose predicate is false is blocked, which the
  embedding renders as `none`.
* `TrafficLight` holds `_currentPhase` and its `MessageQueue`.
* The infinite loops (`waitForGreen`, `cycleThroughPhases`) are embedded by
  their loop bodies, iterated by fuel, by a list of per-iteration inputs or
  by a schedule.
-/

namespace TrafficSim

/-! ## Data model -/

/-- Modelled from the spec: the declaration of `enum TrafficLightPhase` is in
the header `TrafficLight.h`, which is not among the sources; the spec gives
it exactly the two members `red` and `green`, the two the code uses. -/
inductive TrafficLightPhase where
  | red
  | green
  deriving DecidableEq, Repr

/-- Modelled from the spec: the class `MessageQueue<T>` is declared in the
header `TrafficLight.h`, which is not among the sources; its data is the
ordered sequence `_queue` of pending values, used by the code through
`push_back`, `front`, `pop_front` and `empty`.  The front of the sequence is
the head of the list. -/
structure MessageQueue (T : Type) where
  _queue : List T
  deriving DecidableEq, Repr

namespace MessageQueue

variable {T : Type}

/-- A freshly constructed queue (`std::make_shared<MessageQueue<T>>()`). -/
def empty : MessageQueue T := ⟨[]⟩

/-- The member `MessageQueue<T>::send`: under the lock, `_queue.push_back(std::move(msg))`. -/
def send (q : MessageQueue T) (msg : T) : MessageQueue T :=
  ⟨q._queue ++ [msg]⟩

/-- The member `MessageQueue<T>::receive`: under the lock, wait until the queue is not
empty, then take `_queue.front()` and `pop_front()`.  The result is `none`
when the wait predicate is false (the caller stays blocked). -/
def receive (q : MessageQueue T) : Option (T × MessageQueue T) :=
  match q._queue with
  | [] => none
  | msg :: rest => some (msg, ⟨rest⟩)

/-- A single producer sending the values of `xs` one by one. -/
def sendAll (xs : List T) (q : MessageQueue T) : MessageQueue T :=
  xs.foldl send q

/-- A single consumer calling `receive` `n` times in a row; `none` when one
of the calls blocks. -/
def receiveN : Nat → MessageQueue T → Option (List T × MessageQueue T)
  | 0, q => some ([], q)
  | n + 1, q =>
    match q.receive with
    | none => none
    | some (msg, q') =>
      match receiveN n q' with
      | none => none
      | some (msgs, q'') => some (msg :: msgs, q'')

end MessageQueue

/-- Modelled from the spec: the class `TrafficLight` is declared in the header
`TrafficLight.h`, which is not among the sources; its data, as the code uses
it, is the current phase and the message queue shared with the consumers. -/
structure TrafficLight where
  _currentPhase : TrafficLightPhase
  _queue : MessageQueue TrafficLightPhase
  deriving DecidableEq, Repr

namespace TrafficLight

/-- The constructor `TrafficLight::TrafficLight`: a fresh queue, phase red. -/
def new : TrafficLight :=
  { _currentPhase := TrafficLightPhase.red, _queue := MessageQueue.empty }

/-- The member `TrafficLight::getCurrentPhase`: returns `_currentPhase`; the second
component is the object after the call. -/
def getCurrentPhase (tl : TrafficLight) : TrafficLightPhase × TrafficLight :=
  (tl._currentPhase, tl)

/-- The call `_queue->receive()` on the traffic light's queue: the received
message and the traffic light after the call, `none` when the call blocks. -/
def queueReceive (tl : TrafficLight) : Option (TrafficLightPhase × TrafficLight) :=
  match tl._queue.receive with
  | none => none
  | some (msg, q') => some (msg, { _currentPhase := tl._currentPhase, _queue := q' })

/-- The cast `std::move` applied to a `TrafficLightPhase` lvalue: the value bound to
the callee's parameter and the value left in the source (an enum is copied). -/
def stdMove (p : TrafficLightPhase) : TrafficLightPhase × TrafficLightPhase :=
  (p, p)

/-- The guarded block of `cycleThroughPhases`: toggle `_currentPhase`, then
`_queue->send(std::move(_currentPhase))`. -/
def toggleStep (tl : TrafficLight) : TrafficLight :=
  let toggled :=
    if tl._currentPhase = TrafficLightPhase.red then TrafficLightPhase.green
    else TrafficLightPhase.red
  let moved := stdMove toggled
  { _currentPhase := moved.2, _queue := tl._queue.send moved.1 }

/-- One iteration of the loop of `cycleThroughPhases`, as far as the object
is concerned: `cycle_duration` is the drawn `int`, `elapsedCount` is
`elapsedTime.count()`, the tick count of the measured
`system_clock::duration`. -/
def cycleIteration (cycle_duration elapsedCount : Int) (tl : TrafficLight) : TrafficLight :=
  if elapsedCount ≥ cycle_duration then toggleStep tl else tl

/-- A finite prefix of the loop of `cycleThroughPhases`: one pair
`(cycle_duration, elapsedCount)` per iteration. -/
def cycleThroughPhases (its : List (Int × Int)) (tl : TrafficLight) : TrafficLight :=
  its.foldl (fun s it => cycleIteration it.1 it.2 s) tl

/-- The values published so far by a background cycle started on a new
traffic light with no consumer running. -/
def published (its : List (Int × Int)) : List TrafficLightPhase :=
  (cycleThroughPhases its new)._queue._queue

/-- How a `waitForGreen` call stands: the messages it has received so far
and the traffic light it leaves. -/
inductive WaitOutcome where
  | returned (received : List TrafficLightPhase) (tl : TrafficLight)
  | blocked (received : List TrafficLightPhase) (tl : TrafficLight)
  | outOfFuel
  deriving DecidableEq, Repr

/-- The loop of `TrafficLight::waitForGreen`, at most `fuel` iterations, with
no `send` happening meanwhile.  `received` records the messages received. -/
def waitForGreenLoop : Nat → List TrafficLightPhase → TrafficLight → WaitOutcome
  | 0, _, _ => WaitOutcome.outOfFuel
  | fuel + 1, received, tl =>
    match tl.queueReceive with
    | none => WaitOutcome.blocked received tl
    | some (msg, tl') =>
      if msg = TrafficLightPhase.green then WaitOutcome.returned (received ++ [msg]) tl'
      else waitForGreenLoop fuel (received ++ [msg]) tl'

/-- The member `TrafficLight::waitForGreen` run on the present content of the queue:
every iteration that does not block removes one message, so one iteration
more than the queue is long always decides the call. -/
def waitForGreen (tl : TrafficLight) : WaitOutcome :=
  waitForGreenLoop (tl._queue._queue.length + 1) [] tl

/-- States reachable from construction by executed toggles of the background
cycle and by `receive` calls of consumers (`waitForGreen` is a run of them). -/
inductive Reachable : TrafficLight → Prop where
  | construct : Reachable new
  | toggle {tl : TrafficLight} : Reachable tl → Reachable (toggleStep tl)
  | receive {tl tl' : TrafficLight} {msg : TrafficLightPhase} :
      Reachable tl → tl.queueReceive = some (msg, tl') → Reachable tl'

end TrafficLight

/-! ## Interleavings on one channel -/

/-- An operation on a channel, one atomic step under the channel's mutex. -/
inductive ChanOp (T : Type) where
  | send (v : T)
  | receive
  deriving DecidableEq, Repr

/-- A channel together with the history of the values returned by `receive`. -/
structure ChanState (T : Type) where
  chan : MessageQueue T
  received : List T
  deriving DecidableEq, Repr

namespace ChanState

variable {T : Type}

/-- An empty channel on which nothing was received yet. -/
def init : ChanState T := { chan := MessageQueue.empty, received := [] }

/-- One operation; a `receive` is enabled only when the queue is non-empty. -/
def step (s : ChanState T) : ChanOp T → Option (ChanState T)
  | ChanOp.send v => some { chan := s.chan.send v, received := s.received }
  | ChanOp.receive =>
    match s.chan.receive with
    | none => none
    | some (msg, q') => some { chan := q', received := s.received ++ [msg] }

/-- An interleaving of operations; `none` when it schedules a `receive`
that is not enabled. -/
def run : List (ChanOp T) → ChanState T → Option (ChanState T)
  | [], s => some s
  | op :: ops, s =>
    match s.step op with
    | none => none
    | some s' => run ops s'

/-- The values sent by an interleaving, in the order of the `send` steps. -/
def sentValues : List (ChanOp T) → List T
  | [] => []
  | ChanOp.send v :: ops => v :: sentValues ops
  | ChanOp.receive :: ops => sentValues ops

/-- The number of `receive` steps of an interleaving. -/
def numReceives : List (ChanOp T) → Nat
  | [] => 0
  | ChanOp.send _ :: ops => numReceives ops
  | ChanOp.receive :: ops => numReceives ops + 1

end ChanState

/-! ## A traffic light with one waiting consumer -/

/-- A step of the system: an executed toggle of the background cycle, or one
iteration of the loop of a pending `waitForGreen` call. -/
inductive Action where
  | toggle
  | waiterStep
  deriving DecidableEq, Repr

/-- The `waitForGreen` call of the consumer: still in its loop, or returned. -/
inductive WaiterStatus where
  | waiting
  | returned
  deriving DecidableEq, Repr

/-- The traffic light and the consumer that called `waitForGreen` on it. -/
structure Sys where
  tl : TrafficLight
  waiter : WaiterStatus
  deriving DecidableEq, Repr

namespace Sys

/-- One step.  A waiter step on an empty queue leaves the consumer blocked
in `receive`; after the call has returned it does nothing. -/
def step (s : Sys) : Action → Sys
  | Action.toggle => { tl := s.tl.toggleStep, waiter := s.waiter }
  | Action.waiterStep =>
    match s.waiter with
    | WaiterStatus.returned => s
    | WaiterStatus.waiting =>
      match s.tl.queueReceive with
      | none => s
      | some (msg, tl') =>
        if msg = TrafficLightPhase.green then { tl := tl', waiter := WaiterStatus.returned }
        else { tl := tl', waiter := WaiterStatus.waiting }

/-- A schedule of steps. -/
def run (s : Sys) (sched : List Action) : Sys :=
  sched.foldl step s

/-- The state in which a `waitForGreen` call has just started. -/
def start (tl : TrafficLight) : Sys := { tl := tl, waiter := WaiterStatus.waiting }

/-- The consumer alone taking `n` steps. -/
def waiterSteps (n : Nat) : List Action := List.replicate n Action.waiterStep

end Sys

/-! ## Time -/

/-- The spec's reading of the guard of `cycleThroughPhases`: the elapsed
time, `elapsedCount` ticks, is less than the cycle duration,
`cycle_duration` milliseconds, both taken as durations; `ticksPerMs` is the
number of `system_clock` ticks in one millisecond. -/
def elapsedLessThanCycle (ticksPerMs cycle_duration elapsedCount : Int) : Prop :=
  elapsedCount < cycle_duration * ticksPerMs

instance (ticksPerMs cycle_duration elapsedCount : Int) :
    Decidable (elapsedLessThanCycle ticksPerMs cycle_duration elapsedCount) := by
  unfold elapsedLessThanCycle; infer_instance

/-- The nominal timeline of the loop of `cycleThroughPhases`: the traffic
light, the time in milliseconds since the loop was entered, and the times at
which the toggles happened. -/
structure Timeline where
  tl : TrafficLight
  now : Nat
  toggleTimes : List Nat
  deriving DecidableEq, Repr

namespace Timeline

/-- The timeline when the loop is entered on a new traffic light. -/
def init : Timeline := { tl := TrafficLight.new, now := 0, toggleTimes := [] }

/-- One iteration of the loop with every `sleep_for` lasting exactly the time
asked for and the other statements taking no time: sleep `cycle_duration`
milliseconds, run the guarded block, sleep one millisecond. -/
def iteration (ticksPerMs : Nat) (s : Timeline) (cycle_duration : Nat) : Timeline :=
  let startTime := s.now
  let endTime := startTime + cycle_duration
  let elapsedCount : Int := ((endTime - startTime : Nat) : Int) * (ticksPerMs : Int)
  { tl := s.tl.cycleIteration (cycle_duration : Int) elapsedCount
    now := endTime + 1
    toggleTimes :=
      if elapsedCount ≥ (cycle_duration : Int) then s.toggleTimes ++ [endTime]
      else s.toggleTimes }

/-- The loop run on a list of drawn cycle durations. -/
def run (ticksPerMs : Nat) (draws : List Nat) : Timeline :=
  draws.foldl (iteration ticksPerMs) init

/-- The durations between consecutive entries of a list of times. -/
def gaps : List Nat → List Nat
  | a :: b :: rest => (b - a) :: gaps (b :: rest)
  | _ => []

/-- The times of the toggles when every iteration toggles: an iteration
entered at `now` toggles at `now + cycle_duration` and hands over one
millisecond later. -/
def nominalToggleTimes : Nat → List Nat → List Nat
  | _, [] => []
  | now, d :: ds => (now + d) :: nominalToggleTimes (now + d + 1) ds

/-- The inter-toggle durations of the loop run on `draws`. -/
def interToggleDurations (ticksPerMs : Nat) (draws : List Nat) : List Nat :=
  gaps (run ticksPerMs draws).toggleTimes

end Timeline

/-! ## Lock events -/

/-- Modelled from the spec: one lock per object.  The controller's mutex is
the `_mutex` locked in `cycleThroughPhases`, the channel's mutex is the
`_mutex` locked in `send` and `receive`; both are declared in the header
`TrafficLight.h`, which is not among the sources. -/
inductive Mutex where
  | controller
  | channel
  deriving DecidableEq, Repr

/-- A lock event of one thread. -/
inductive LockEvent where
  | acquire (m : Mutex)
  | release (m : Mutex)
  deriving DecidableEq, Repr

/-- An operation of the traffic light as one thread runs it:
an iteration of `cycleThroughPhases` with its drawn duration and measured
tick count, a `waitForGreen` call with, for each of its `receive` calls, the
number of times the condition variable made it wait, or `getCurrentPhase`. -/
inductive Operation where
  | cycleIteration (cycle_duration elapsedCount : Int)
  | waitForGreen (waits : List Nat)
  | getCurrentPhase
  deriving DecidableEq, Repr

namespace LockEvent

/-- The locking of `MessageQueue::send`: a `lock_guard` on the channel's mutex for the body. -/
def sendTrace : List LockEvent :=
  [acquire Mutex.channel, release Mutex.channel]

/-- The locking of `MessageQueue::receive`: a `unique_lock` on the channel's mutex;
`_cond.wait(lock, pred)` releases and re-acquires it each time it waits. -/
def receiveTrace (waits : Nat) : List LockEvent :=
  acquire Mutex.channel ::
    ((List.replicate waits [release Mutex.channel, acquire Mutex.channel]).flatten
      ++ [release Mutex.channel])

/-- The lock events of one operation. -/
def ofOperation : Operation → List LockEvent
  | Operation.cycleIteration cycle_duration elapsedCount =>
    if elapsedCount ≥ cycle_duration then
      [acquire Mutex.controller] ++ sendTrace ++ [release Mutex.controller]
    else []
  | Operation.waitForGreen waits => (waits.map receiveTrace).flatten
  | Operation.getCurrentPhase => []

/-- The lock events of a thread running the operations of `ops` in turn. -/
def threadTrace (ops : List Operation) : List LockEvent :=
  (ops.map ofOperation).flatten

/-- The mutexes a thread holds after an event. -/
def holdsAfter (held : List Mutex) : LockEvent → List Mutex
  | acquire m => m :: held
  | release m => held.erase m

/-- The mutexes a thread holds after a trace. -/
def holdsAfterTrace (held : List Mutex) (trace : List LockEvent) : List Mutex :=
  trace.foldl holdsAfter held

/-- Whether, in a trace run by a thread holding `held`, there is a point at
which `inner` is acquired while `outer` is held. -/
def acquiredWhileHeld (outer inner : Mutex) : List Mutex → List LockEvent → Bool
  | _, [] => false
  | held, ev :: rest =>
    (match ev with
      | acquire m => decide (m = inner) && decide (outer ∈ held)
      | release _ => false)
    || acquiredWhileHeld outer inner (holdsAfter held ev) rest

end LockEvent

/-! ## FIFO delivery -/

theorem MessageQueue.sendAll_queue {T : Type} (xs : List T) (q : MessageQueue T) :
    (MessageQueue.sendAll xs q)._queue = q._queue ++ xs := by
  unfold MessageQueue.sendAll
  induction xs generalizing q with
  | nil => simp
  | cons x xs ih => simp [List.foldl_cons, ih, MessageQueue.send]

theorem MessageQueue.sendAll_eq {T : Type} (xs : List T) (q : MessageQueue T) :
    MessageQueue.sendAll xs q = { _queue := q._queue ++ xs } := by
  have := MessageQueue.sendAll_queue xs q
  cases hq : MessageQueue.sendAll xs q with
  | mk l =>
    rw [hq] at this
    simp only at this
    rw [this]

theorem MessageQueue.receiveN_append {T : Type} (xs ys : List T) :
    MessageQueue.receiveN xs.length (⟨xs ++ ys⟩ : MessageQueue T) = some (xs, ⟨ys⟩) := by
  induction xs with
  | nil => simp [MessageQueue.receiveN]
  | cons x xs ih =>
    simp [MessageQueue.receiveN, MessageQueue.receive, ih]

/-- C1 (FIFO delivery): after a single producer has sent the values of `xs`
one by one into an initially empty channel, `xs.length` successive `receive`
calls return exactly `xs`, in the order sent, and leave the channel empty. -/
theorem fifo_delivery {T : Type} (xs : List T) :
    MessageQueue.receiveN xs.length (MessageQueue.sendAll xs MessageQueue.empty)
      = some (xs, MessageQueue.empty) := by
  rw [MessageQueue.sendAll_eq]
  have h := MessageQueue.receiveN_append xs ([] : List T)
  simpa [MessageQueue.empty] using h

/-! ## Hand-off conservation -/

theorem ChanState.step_conserves {T : Type} (s s' : ChanState T) (op : ChanOp T)
    (h : s.step op = some s') :
    s'.received ++ s'.chan._queue
      = s.received ++ s.chan._queue ++ ChanState.sentValues [op]
    ∧ s'.received.length = s.received.length + ChanState.numReceives [op] := by
  cases op with
  | send v =>
    simp [ChanState.step] at h
    subst h
    simp [MessageQueue.send, ChanState.sentValues, ChanState.numReceives]
  | receive =>
    rcases s with ⟨⟨q⟩, r⟩
    cases q with
    | nil => simp [ChanState.step, MessageQueue.receive] at h
    | cons x rest =>
      simp [ChanState.step, MessageQueue.receive] at h
      subst h
      simp [ChanState.sentValues, ChanState.numReceives]

theorem ChanState.sentValues_cons {T : Type} (op : ChanOp T) (ops : List (ChanOp T)) :
    ChanState.sentValues (op :: ops) = ChanState.sentValues [op] ++ ChanState.sentValues ops := by
  cases op <;> simp [ChanState.sentValues]

theorem ChanState.numReceives_cons {T : Type} (op : ChanOp T) (ops : List (ChanOp T)) :
    ChanState.numReceives (op :: ops)
      = ChanState.numReceives [op] + ChanState.numReceives ops := by
  cases op <;> simp [ChanState.numReceives, Nat.add_comm]

theorem ChanState.run_conserves {T : Type} (ops : List (ChanOp T)) (s s' : ChanState T)
    (h : ChanState.run ops s = some s') :
    s'.received ++ s'.chan._queue
      = s.received ++ s.chan._queue ++ ChanState.sentValues ops
    ∧ s'.received.length = s.received.length + ChanState.numReceives ops := by
  induction ops generalizing s with
  | nil =>
    simp [ChanState.run] at h
    subst h
    simp [ChanState.sentValues, ChanState.numReceives]
  | cons op ops ih =>
    simp only [ChanState.run] at h
    cases hs : s.step op with
    | none => simp [hs] at h
    | some s1 =>
      simp only [hs] at h
      obtain ⟨h1, h2⟩ := ChanState.step_conserves s s1 op hs
      obtain ⟨h3, h4⟩ := ih s1 h
      rw [ChanState.sentValues_cons, ChanState.numReceives_cons]
      constructor
      · rw [h3, h1]; simp
      · rw [h4, h2]; omega

theorem ChanState.sentValues_length_add {T : Type} (ops : List (ChanOp T)) :
    (ChanState.sentValues ops).length + ChanState.numReceives ops = ops.length := by
  induction ops with
  | nil => simp [ChanState.sentValues, ChanState.numReceives]
  | cons op ops ih =>
    cases op <;> simp [ChanState.sentValues, ChanState.numReceives] <;> omega

/-- C2 (hand-off conservation): in every interleaving `ops` of sends and
enabled receives on a channel that starts empty, the values received so far
followed by the values still queued are exactly the values sent so far, the
number of completed receives is the number of values received, values sent
once are received at most once and are no longer queued once received, and
when everything sent has been received the number of completed receives is
the number of sends. -/
theorem handoff_conservation {T : Type} (ops : List (ChanOp T)) (s : ChanState T)
    (h : ChanState.run ops ChanState.init = some s) :
    s.received ++ s.chan._queue = ChanState.sentValues ops
    ∧ s.received.length = ChanState.numReceives ops
    ∧ s.received = (ChanState.sentValues ops).take (ChanState.numReceives ops)
    ∧ s.chan._queue = (ChanState.sentValues ops).drop (ChanState.numReceives ops)
    ∧ ((ChanState.sentValues ops).Nodup →
        s.received.Nodup ∧ ∀ v, v ∈ s.received → v ∉ s.chan._queue)
    ∧ (s.received = ChanState.sentValues ops →
        ChanState.numReceives ops = (ChanState.sentValues ops).length
        ∧ s.chan._queue = []) := by
  obtain ⟨h1, h2⟩ := ChanState.run_conserves ops ChanState.init s h
  simp [ChanState.init, MessageQueue.empty] at h1 h2
  refine ⟨h1, h2, ?_, ?_, ?_, ?_⟩
  · rw [← h1, ← h2]; simp
  · rw [← h1, ← h2]; simp
  · intro hnd
    rw [← h1] at hnd
    refine ⟨(List.nodup_append.mp hnd).1, ?_⟩
    intro v hv hq
    exact (List.nodup_append.mp hnd).2.2 hv hq
  · intro hall
    constructor
    · rw [← h2, hall]
    · have := congrArg List.length h1
      rw [List.length_append, hall] at this
      exact List.length_eq_zero.mp (by omega)

/-- A run of C2: two sends, a receive, a send, a receive. -/
theorem handoff_conservation_witness :
    ChanState.run [ChanOp.send 1, ChanOp.send 2, ChanOp.receive, ChanOp.send 3, ChanOp.receive]
        (ChanState.init : ChanState Nat)
      = some { chan := { _queue := [3] }, received := [1, 2] }
    ∧ ([1, 2] : List Nat) ++ [3] = ChanState.sentValues
        [ChanOp.send 1, ChanOp.send 2, ChanOp.receive, ChanOp.send 3, ChanOp.receive] :=
  ⟨by decide, (handoff_conservation
      [ChanOp.send 1, ChanOp.send 2, ChanOp.receive, ChanOp.send 3, ChanOp.receive]
      { chan := { _queue := [3] }, received := [1, 2] } (by decide)).1⟩

/-! ## The phase state machine and the published sequence -/

/-- The phase stored after `n` executed toggles: red for even `n`. -/
theorem TrafficLight.iterate_toggleStep (n : Nat) :
    TrafficLight.toggleStep^[n] TrafficLight.new
      = { _currentPhase :=
            if n % 2 = 0 then TrafficLightPhase.red else TrafficLightPhase.green
          _queue := { _queue := (List.range n).map (fun i =>
            if i % 2 = 0 then TrafficLightPhase.green else TrafficLightPhase.red) } } := by
  induction n with
  | zero => simp [TrafficLight.new, MessageQueue.empty]
  | succ n ih =>
    rw [Function.iterate_succ_apply', ih]
    rcases Nat.mod_two_eq_zero_or_one n with h | h
    · have h' : (n + 1) % 2 = 1 := by omega
      simp [TrafficLight.toggleStep, TrafficLight.stdMove, MessageQueue.send, h, h',
        List.range_succ]
    · have h' : (n + 1) % 2 = 0 := by omega
      simp [TrafficLight.toggleStep, TrafficLight.stdMove, MessageQueue.send, h, h',
        List.range_succ]

/-- A prefix of the background loop amounts to as many toggles as it has
iterations whose guard holds. -/
theorem TrafficLight.cycleThroughPhases_eq_iterate (its : List (Int × Int)) (tl : TrafficLight) :
    TrafficLight.cycleThroughPhases its tl
      = TrafficLight.toggleStep^[its.countP (fun it => decide (it.2 ≥ it.1))] tl := by
  unfold TrafficLight.cycleThroughPhases
  induction its generalizing tl with
  | nil => simp
  | cons it its ih =>
    rw [List.foldl_cons, ih]
    by_cases hg : it.2 ≥ it.1
    · rw [List.countP_cons_of_pos _ _ (by simpa using hg)]
      simp [TrafficLight.cycleIteration, hg, Function.iterate_succ_apply]
    · rw [List.countP_cons_of_neg _ _ (by simpa using hg)]
      simp [TrafficLight.cycleIteration, hg]

theorem TrafficLight.published_eq (its : List (Int × Int)) :
    TrafficLight.published its
      = (List.range (its.countP (fun it => decide (it.2 ≥ it.1)))).map (fun i =>
          if i % 2 = 0 then TrafficLightPhase.green else TrafficLightPhase.red) := by
  unfold TrafficLight.published
  rw [TrafficLight.cycleThroughPhases_eq_iterate, TrafficLight.iterate_toggleStep]

/-- C3 (alternation): construction publishes nothing, and for every prefix
`its` of a single background cycle started on a new traffic light and every
`n ≥ 1` not exceeding the number of values published, the first `n`
published values are green, red, green, ... : the first is green and no two
consecutive ones are equal. -/
theorem alternation (its : List (Int × Int)) (n : Nat) (h1 : 1 ≤ n)
    (hn : n ≤ (TrafficLight.published its).length) :
    TrafficLight.new._queue._queue = []
    ∧ (TrafficLight.published its).length
        = its.countP (fun it => decide (it.2 ≥ it.1))
    ∧ (TrafficLight.published its).take n
        = (List.range n).map (fun i =>
            if i % 2 = 0 then TrafficLightPhase.green else TrafficLightPhase.red)
    ∧ ((TrafficLight.published its).take n).head? = some TrafficLightPhase.green
    ∧ ∀ i, i + 1 < n →
        ((TrafficLight.published its).take n)[i]?
          ≠ ((TrafficLight.published its).take n)[i + 1]? := by
  rw [TrafficLight.published_eq] at hn ⊢
  simp only [List.length_map, List.length_range] at hn
  have htake : ((List.range (its.countP (fun it => decide (it.2 ≥ it.1)))).map (fun i =>
        if i % 2 = 0 then TrafficLightPhase.green else TrafficLightPhase.red)).take n
      = (List.range n).map (fun i =>
          if i % 2 = 0 then TrafficLightPhase.green else TrafficLightPhase.red) := by
    rw [← List.map_take, List.take_range, Nat.min_eq_left hn]
  refine ⟨rfl, by simp, htake, ?_, ?_⟩
  · rw [htake]
    obtain ⟨m, rfl⟩ : ∃ m, n = m + 1 := ⟨n - 1, by omega⟩
    simp [List.range_succ_eq_map]
  · intro i hi
    rw [htake]
    have hi0 : i < n := by omega
    simp only [List.getElem?_map, List.getElem?_range hi0, List.getElem?_range hi,
      Option.map_some']
    rcases Nat.mod_two_eq_zero_or_one i with h | h
    · have h' : (i + 1) % 2 = 1 := by omega
      simp [h, h']
    · have h' : (i + 1) % 2 = 0 := by omega
      simp [h, h']

/-- An instance of C3: three iterations, the second one skipped. -/
theorem alternation_witness :
    TrafficLight.published [(4000, 4000), (5000, 4999), (6000, 6001)]
      = [TrafficLightPhase.green, TrafficLightPhase.red]
    ∧ (TrafficLight.published [(4000, 4000), (5000, 4999), (6000, 6001)]).take 2
      = (List.range 2).map (fun i =>
          if i % 2 = 0 then TrafficLightPhase.green else TrafficLightPhase.red) :=
  ⟨by decide,
   (alternation [(4000, 4000), (5000, 4999), (6000, 6001)] 2 (by decide) (by decide)).2.2.1⟩

/-- C7 (phase state machine): a new traffic light has an empty channel and
phase red; after `n` executed toggles the phase is red for even `n` and green
for odd `n`; a toggle stores the other phase and publishes that same value,
which stays stored; `getCurrentPhase` leaves the object as it was. -/
theorem phase_state_machine (n : Nat) (tl : TrafficLight) :
    TrafficLight.new._queue._queue = []
    ∧ (TrafficLight.getCurrentPhase TrafficLight.new).1 = TrafficLightPhase.red
    ∧ (TrafficLight.getCurrentPhase (TrafficLight.toggleStep^[n] TrafficLight.new)).1
        = (if n % 2 = 0 then TrafficLightPhase.red else TrafficLightPhase.green)
    ∧ (TrafficLight.toggleStep tl)._currentPhase
        = (if tl._currentPhase = TrafficLightPhase.red then TrafficLightPhase.green
           else TrafficLightPhase.red)
    ∧ (TrafficLight.toggleStep tl)._queue._queue
        = tl._queue._queue ++ [(TrafficLight.toggleStep tl)._currentPhase]
    ∧ (TrafficLight.getCurrentPhase tl).2 = tl
    ∧ (TrafficLight.getCurrentPhase tl).1 = tl._currentPhase := by
  refine ⟨rfl, rfl, ?_, rfl, rfl, rfl, rfl⟩
  rw [TrafficLight.iterate_toggleStep]
  rfl

/-! ## waitForGreen on a given channel content -/

theorem TrafficLightPhase.eq_red_of_ne_green (x : TrafficLightPhase)
    (h : x ≠ TrafficLightPhase.green) : x = TrafficLightPhase.red := by
  cases x
  · rfl
  · exact absurd rfl h

theorem TrafficLight.queueReceive_cons (p x : TrafficLightPhase) (xs : List TrafficLightPhase) :
    TrafficLight.queueReceive { _currentPhase := p, _queue := { _queue := x :: xs } }
      = some (x, { _currentPhase := p, _queue := { _queue := xs } }) := rfl

theorem TrafficLight.queueReceive_nil (p : TrafficLightPhase) :
    TrafficLight.queueReceive { _currentPhase := p, _queue := { _queue := [] } } = none := rfl

/-- With green first at position `k`, the loop returns in iteration `k + 1`
and not before. -/
theorem TrafficLight.waitForGreenLoop_first_green (p : TrafficLightPhase)
    (q : List TrafficLightPhase) (k fuel : Nat) (r : List TrafficLightPhase)
    (hk : q[k]? = some TrafficLightPhase.green)
    (hfirst : ∀ i, i < k → q[i]? ≠ some TrafficLightPhase.green) :
    (k < fuel →
      TrafficLight.waitForGreenLoop fuel r { _currentPhase := p, _queue := { _queue := q } }
        = TrafficLight.WaitOutcome.returned (r ++ q.take (k + 1))
            { _currentPhase := p, _queue := { _queue := q.drop (k + 1) } })
    ∧ (fuel ≤ k →
      TrafficLight.waitForGreenLoop fuel r { _currentPhase := p, _queue := { _queue := q } }
        = TrafficLight.WaitOutcome.outOfFuel)
    ∧ q.take (k + 1) = List.replicate k TrafficLightPhase.red ++ [TrafficLightPhase.green] := by
  induction q generalizing k fuel r with
  | nil => simp at hk
  | cons x xs ih =>
    cases k with
    | zero =>
      simp at hk
      subst hk
      refine ⟨?_, ?_, by simp⟩
      · intro hf
        obtain ⟨f, rfl⟩ : ∃ f, fuel = f + 1 := ⟨fuel - 1, by omega⟩
        simp [TrafficLight.waitForGreenLoop, TrafficLight.queueReceive_cons]
      · intro hf
        have : fuel = 0 := by omega
        subst this
        rfl
    | succ k =>
      have hx : x = TrafficLightPhase.red := by
        apply TrafficLightPhase.eq_red_of_ne_green
        intro hxg
        exact hfirst 0 (by omega) (by simp [hxg])
      subst hx
      have hk' : xs[k]? = some TrafficLightPhase.green := by simpa using hk
      have hfirst' : ∀ i, i < k → xs[i]? ≠ some TrafficLightPhase.green := by
        intro i hi
        have := hfirst (i + 1) (by omega)
        simpa using this
      refine ⟨?_, ?_, ?_⟩
      · intro hf
        obtain ⟨f, rfl⟩ : ∃ f, fuel = f + 1 := ⟨fuel - 1, by omega⟩
        have := (ih k f (r ++ [TrafficLightPhase.red]) hk' hfirst').1 (by omega)
        simp [TrafficLight.waitForGreenLoop, TrafficLight.queueReceive_cons, this]
      · intro hf
        cases fuel with
        | zero => rfl
        | succ f =>
          have := (ih k f (r ++ [TrafficLightPhase.red]) hk' hfirst').2.1 (by omega)
          simp [TrafficLight.waitForGreenLoop, TrafficLight.queueReceive_cons, this]
      · have := (ih k 0 [] hk' hfirst').2.2
        simp [List.replicate_succ, this]

/-- Without a green in the queue the loop never returns; with enough fuel
it consumes the whole queue and blocks. -/
theorem TrafficLight.waitForGreenLoop_no_green (p : TrafficLightPhase)
    (q : List TrafficLightPhase) (fuel : Nat) (r : List TrafficLightPhase)
    (hng : TrafficLightPhase.green ∉ q) :
    (q.length < fuel →
      TrafficLight.waitForGreenLoop fuel r { _currentPhase := p, _queue := { _queue := q } }
        = TrafficLight.WaitOutcome.blocked (r ++ q)
            { _currentPhase := p, _queue := { _queue := [] } })
    ∧ (∀ r' tl',
      TrafficLight.waitForGreenLoop fuel r { _currentPhase := p, _queue := { _queue := q } }
        ≠ TrafficLight.WaitOutcome.returned r' tl') := by
  induction q generalizing fuel r with
  | nil =>
    cases fuel with
    | zero => simp [TrafficLight.waitForGreenLoop]
    | succ f => simp [TrafficLight.waitForGreenLoop, TrafficLight.queueReceive_nil]
  | cons x xs ih =>
    have hx : x = TrafficLightPhase.red := by
      apply TrafficLightPhase.eq_red_of_ne_green
      intro hxg
      exact hng (by simp [hxg])
    subst hx
    have hng' : TrafficLightPhase.green ∉ xs := fun h => hng (List.mem_cons_of_mem _ h)
    cases fuel with
    | zero => simp [TrafficLight.waitForGreenLoop]
    | succ f =>
      obtain ⟨h1, h2⟩ := ih f (r ++ [TrafficLightPhase.red]) hng'
      refine ⟨?_, ?_⟩
      · intro hf
        have := h1 (by simpa using hf)
        simp [TrafficLight.waitForGreenLoop, TrafficLight.queueReceive_cons, this]
      · intro r' tl'
        simpa [TrafficLight.waitForGreenLoop, TrafficLight.queueReceive_cons] using h2 r' tl'

/-- C4 (waitForGreen consumes up to the first green): on a channel content
`q` whose first green is at position `k`, `waitForGreen` returns after
exactly `k + 1` receives (iteration `k + 1` of its loop, no earlier one),
the received values being `k` reds and the green, and leaves the elements of
`q` after position `k`, in order; on a `q` without green it consumes all of
`q`, blocks on the empty channel, and no number of iterations makes it
return; called again on the channel it left, it blocks again after reds were
sent and returns once a green was sent after them. -/
theorem waitForGreen_first_green (p : TrafficLightPhase) (q : List TrafficLightPhase) :
    (∀ k, q[k]? = some TrafficLightPhase.green →
        (∀ i, i < k → q[i]? ≠ some TrafficLightPhase.green) →
        TrafficLight.waitForGreen { _currentPhase := p, _queue := { _queue := q } }
          = TrafficLight.WaitOutcome.returned (q.take (k + 1))
              { _currentPhase := p, _queue := { _queue := q.drop (k + 1) } }
        ∧ (q.take (k + 1)).length = k + 1
        ∧ q.take (k + 1)
            = List.replicate k TrafficLightPhase.red ++ [TrafficLightPhase.green]
        ∧ (∀ fuel, k < fuel →
            TrafficLight.waitForGreenLoop fuel []
                { _currentPhase := p, _queue := { _queue := q } }
              = TrafficLight.WaitOutcome.returned (q.take (k + 1))
                  { _currentPhase := p, _queue := { _queue := q.drop (k + 1) } })
        ∧ (∀ fuel, fuel ≤ k →
            TrafficLight.waitForGreenLoop fuel []
                { _currentPhase := p, _queue := { _queue := q } }
              = TrafficLight.WaitOutcome.outOfFuel))
    ∧ (TrafficLightPhase.green ∉ q →
        TrafficLight.waitForGreen { _currentPhase := p, _queue := { _queue := q } }
          = TrafficLight.WaitOutcome.blocked q
              { _currentPhase := p, _queue := { _queue := [] } }
        ∧ (∀ fuel r tl,
            TrafficLight.waitForGreenLoop fuel []
                { _currentPhase := p, _queue := { _queue := q } }
              ≠ TrafficLight.WaitOutcome.returned r tl)
        ∧ ∀ rs, TrafficLightPhase.green ∉ rs →
            TrafficLight.waitForGreen
                { _currentPhase := p, _queue := MessageQueue.sendAll rs { _queue := [] } }
              = TrafficLight.WaitOutcome.blocked rs
                  { _currentPhase := p, _queue := { _queue := [] } }
            ∧ TrafficLight.waitForGreen
                { _currentPhase := p
                  _queue := MessageQueue.sendAll (rs ++ [TrafficLightPhase.green])
                    { _queue := [] } }
              = TrafficLight.WaitOutcome.returned (rs ++ [TrafficLightPhase.green])
                  { _currentPhase := p, _queue := { _queue := [] } }) := by
  constructor
  · intro k hk hfirst
    have hlen : k < q.length := by
      rcases Nat.lt_or_ge k q.length with h | h
      · exact h
      · rw [List.getElem?_eq_none h] at hk
        cases hk
    have key := fun fuel => TrafficLight.waitForGreenLoop_first_green p q k fuel [] hk hfirst
    refine ⟨?_, ?_, (key 0).2.2, ?_, ?_⟩
    · have := (key (q.length + 1)).1 (by omega)
      simpa [TrafficLight.waitForGreen] using this
    · simp; omega
    · intro fuel hf
      simpa using (key fuel).1 hf
    · intro fuel hf
      exact (key fuel).2.1 hf
  · intro hng
    refine ⟨?_, ?_, ?_⟩
    · have := (TrafficLight.waitForGreenLoop_no_green p q (q.length + 1) [] hng).1 (by omega)
      simpa [TrafficLight.waitForGreen] using this
    · intro fuel r tl
      exact (TrafficLight.waitForGreenLoop_no_green p q fuel [] hng).2 r tl
    · intro rs hrs
      rw [MessageQueue.sendAll_eq, MessageQueue.sendAll_eq]
      constructor
      · have := (TrafficLight.waitForGreenLoop_no_green p rs (rs.length + 1) [] hrs).1
          (by omega)
        simpa [TrafficLight.waitForGreen] using this
      · have hk : (rs ++ [TrafficLightPhase.green])[rs.length]?
            = some TrafficLightPhase.green := by simp
        have hfirst : ∀ i, i < rs.length →
            (rs ++ [TrafficLightPhase.green])[i]? ≠ some TrafficLightPhase.green := by
          intro i hi hgi
          rw [List.getElem?_append_left hi, List.getElem?_eq_getElem hi] at hgi
          have hmem : rs[i] ∈ rs := List.getElem_mem hi
          rw [Option.some.inj hgi] at hmem
          exact hrs hmem
        have := (TrafficLight.waitForGreenLoop_first_green p (rs ++ [TrafficLightPhase.green])
          rs.length (rs.length + 1 + 1) [] hk hfirst).1 (by omega)
        have htake : List.take (rs.length + 1) (rs ++ [TrafficLightPhase.green])
            = rs ++ [TrafficLightPhase.green] :=
          List.take_of_length_le (by simp)
        rw [htake] at this
        simpa [TrafficLight.waitForGreen] using this

/-- Two runs of C4: green first at position 2, and no green at all. -/
theorem waitForGreen_first_green_witness :
    TrafficLight.waitForGreen
        { _currentPhase := TrafficLightPhase.red
          _queue := { _queue := [TrafficLightPhase.red, TrafficLightPhase.red,
            TrafficLightPhase.green, TrafficLightPhase.red, TrafficLightPhase.green] } }
      = TrafficLight.WaitOutcome.returned
          [TrafficLightPhase.red, TrafficLightPhase.red, TrafficLightPhase.green]
          { _currentPhase := TrafficLightPhase.red
            _queue := { _queue := [TrafficLightPhase.red, TrafficLightPhase.green] } }
    ∧ TrafficLight.waitForGreen
        { _currentPhase := TrafficLightPhase.red
          _queue := { _queue := [TrafficLightPhase.red, TrafficLightPhase.red] } }
      = TrafficLight.WaitOutcome.blocked [TrafficLightPhase.red, TrafficLightPhase.red]
          { _currentPhase := TrafficLightPhase.red, _queue := { _queue := [] } } :=
  ⟨((waitForGreen_first_green TrafficLightPhase.red
        [TrafficLightPhase.red, TrafficLightPhase.red, TrafficLightPhase.green,
          TrafficLightPhase.red, TrafficLightPhase.green]).1 2 (by decide)
        (by intro i hi; interval_cases i <;> decide)).1,
   ((waitForGreen_first_green TrafficLightPhase.red
        [TrafficLightPhase.red, TrafficLightPhase.red]).2 (by decide)).1⟩

/-! ## A pending waitForGreen call and the background cycle -/

theorem Sys.run_append (s : Sys) (a b : List Action) :
    Sys.run s (a ++ b) = Sys.run (Sys.run s a) b := by
  simp [Sys.run, List.foldl_append]

theorem Sys.run_cons (s : Sys) (x : Action) (a : List Action) :
    Sys.run s (x :: a) = Sys.run (s.step x) a := rfl

/-- A waiter step of a pending call on a queue without green keeps the call
pending, the queue without green and the phase as it was. -/
theorem Sys.waiterStep_no_green (s : Sys) (hw : s.waiter = WaiterStatus.waiting)
    (hng : TrafficLightPhase.green ∉ s.tl._queue._queue) :
    (s.step Action.waiterStep).waiter = WaiterStatus.waiting
    ∧ TrafficLightPhase.green ∉ (s.step Action.waiterStep).tl._queue._queue
    ∧ (s.step Action.waiterStep).tl._currentPhase = s.tl._currentPhase := by
  rcases s with ⟨⟨p, ⟨q⟩⟩, w⟩
  simp only at hw hng
  subst hw
  cases q with
  | nil => simp [Sys.step, TrafficLight.queueReceive_nil]
  | cons x xs =>
    have hx : x ≠ TrafficLightPhase.green := fun h => hng (by simp [h])
    have hxs : TrafficLightPhase.green ∉ xs := fun h => hng (List.mem_cons_of_mem _ h)
    simp [Sys.step, TrafficLight.queueReceive_cons, hx, hxs]

/-- A schedule without toggle keeps a pending call on a queue without green
pending. -/
theorem Sys.run_no_toggle (sched : List Action) (s : Sys)
    (hw : s.waiter = WaiterStatus.waiting)
    (hng : TrafficLightPhase.green ∉ s.tl._queue._queue)
    (hnt : Action.toggle ∉ sched) :
    (Sys.run s sched).waiter = WaiterStatus.waiting
    ∧ (Sys.run s sched).tl._currentPhase = s.tl._currentPhase := by
  induction sched generalizing s with
  | nil => exact ⟨hw, rfl⟩
  | cons x rest ih =>
    cases x with
    | toggle => exact absurd (List.mem_cons_self _ _) hnt
    | waiterStep =>
      obtain ⟨h1, h2, h3⟩ := Sys.waiterStep_no_green s hw hng
      have hnt' : Action.toggle ∉ rest := fun h => hnt (List.mem_cons_of_mem _ h)
      obtain ⟨h4, h5⟩ := ih (s.step Action.waiterStep) h1 h2 hnt'
      rw [Sys.run_cons]
      exact ⟨h4, h5.trans h3⟩

/-- The claim C5 as stated fails: after two toggles and no receive the phase
is red, the controller has just toggled to red, and a `waitForGreen` call
started then returns on the pending green with no further toggle. -/
theorem blocking_semantics_counterexample :
    ¬ (∀ tl : TrafficLight, TrafficLight.Reachable tl →
        (TrafficLight.getCurrentPhase tl).1 = TrafficLightPhase.red →
        ∀ sched : List Action,
          (Sys.run (Sys.start tl) sched).waiter = WaiterStatus.returned →
          Action.toggle ∈ sched) := by
  intro h
  have h2 := h (TrafficLight.toggleStep (TrafficLight.toggleStep TrafficLight.new))
    (TrafficLight.Reachable.toggle (TrafficLight.Reachable.toggle
      TrafficLight.Reachable.construct))
    (by decide) [Action.waiterStep] (by decide)
  exact absurd h2 (by decide)

/-- C5 (blocking semantics, amended): when the phase is red and no green is
pending in the channel, a `waitForGreen` call started then is still pending
after every schedule without a toggle, the next toggle is the one to green,
and so the call has returned only after schedules that contain a toggle. -/
theorem blocking_semantics (tl : TrafficLight)
    (hred : (TrafficLight.getCurrentPhase tl).1 = TrafficLightPhase.red)
    (hng : TrafficLightPhase.green ∉ tl._queue._queue) (sched : List Action) :
    (Action.toggle ∉ sched →
      (Sys.run (Sys.start tl) sched).waiter = WaiterStatus.waiting
      ∧ (TrafficLight.getCurrentPhase
          (Sys.run (Sys.start tl) (sched ++ [Action.toggle])).tl).1
          = TrafficLightPhase.green)
    ∧ ((Sys.run (Sys.start tl) sched).waiter = WaiterStatus.returned →
      Action.toggle ∈ sched) := by
  have key : Action.toggle ∉ sched →
      (Sys.run (Sys.start tl) sched).waiter = WaiterStatus.waiting
      ∧ (Sys.run (Sys.start tl) sched).tl._currentPhase = TrafficLightPhase.red := by
    intro hnt
    obtain ⟨h1, h2⟩ := Sys.run_no_toggle sched (Sys.start tl) rfl hng hnt
    exact ⟨h1, h2.trans hred⟩
  constructor
  · intro hnt
    obtain ⟨h1, h2⟩ := key hnt
    refine ⟨h1, ?_⟩
    rw [Sys.run_append]
    simp [Sys.run, Sys.step, TrafficLight.getCurrentPhase, TrafficLight.toggleStep,
      TrafficLight.stdMove]
    simp [Sys.run] at h2
    simp [h2]
  · intro hret
    by_contra hnt
    rw [(key hnt).1] at hret
    cases hret

/-- A run of C5: the red of the last toggle is pending; the call consumes it,
stays pending, and returns after the toggle to green. -/
theorem blocking_semantics_witness :
    TrafficLight.Reachable
        { _currentPhase := TrafficLightPhase.red
          _queue := { _queue := [TrafficLightPhase.red] } }
    ∧ (Sys.run (Sys.start { _currentPhase := TrafficLightPhase.red,
                            _queue := { _queue := [TrafficLightPhase.red] } })
        [Action.waiterStep, Action.toggle, Action.waiterStep]).waiter
        = WaiterStatus.returned
    ∧ Action.toggle ∈ [Action.waiterStep, Action.toggle, Action.waiterStep] :=
  ⟨@TrafficLight.Reachable.receive
      (TrafficLight.toggleStep (TrafficLight.toggleStep TrafficLight.new)) _
      TrafficLightPhase.green
      (TrafficLight.Reachable.toggle (TrafficLight.Reachable.toggle
        TrafficLight.Reachable.construct)) rfl,
   by decide,
   (blocking_semantics
      { _currentPhase := TrafficLightPhase.red
        _queue := { _queue := [TrafficLightPhase.red] } }
      rfl (by decide) [Action.waiterStep, Action.toggle, Action.waiterStep]).2 (by decide)⟩

/-! ## Green on return -/

theorem Sys.waiterSteps_succ (n : Nat) :
    Sys.waiterSteps (n + 1) = Action.waiterStep :: Sys.waiterSteps n := by
  simp [Sys.waiterSteps, List.replicate_succ]

/-- A pending call on an empty queue stays as it is under waiter steps. -/
theorem Sys.run_waiterSteps_empty (p : TrafficLightPhase) (n : Nat) :
    Sys.run { tl := { _currentPhase := p, _queue := { _queue := [] } },
              waiter := WaiterStatus.waiting } (Sys.waiterSteps n)
      = { tl := { _currentPhase := p, _queue := { _queue := [] } },
          waiter := WaiterStatus.waiting } := by
  induction n with
  | zero => rfl
  | succ n ih =>
    rw [Sys.waiterSteps_succ, Sys.run_cons]
    simpa [Sys.step, TrafficLight.queueReceive_nil] using ih

/-- After the return waiter steps do nothing. -/
theorem Sys.run_waiterSteps_returned (tl : TrafficLight) (n : Nat) :
    Sys.run { tl := tl, waiter := WaiterStatus.returned } (Sys.waiterSteps n)
      = { tl := tl, waiter := WaiterStatus.returned } := by
  induction n with
  | zero => rfl
  | succ n ih =>
    rw [Sys.waiterSteps_succ, Sys.run_cons]
    simpa [Sys.step] using ih

/-- A pending call facing a single green returns at its next step. -/
theorem Sys.run_waiterSteps_green (p : TrafficLightPhase) (n : Nat) :
    Sys.run { tl := { _currentPhase := p, _queue := { _queue := [TrafficLightPhase.green] } },
              waiter := WaiterStatus.waiting } (Sys.waiterSteps (n + 1))
      = { tl := { _currentPhase := p, _queue := { _queue := [] } },
          waiter := WaiterStatus.returned } := by
  rw [Sys.waiterSteps_succ, Sys.run_cons]
  simpa [Sys.step, TrafficLight.queueReceive_cons] using Sys.run_waiterSteps_returned _ n

/-- A pending call facing a red and then a green returns at its second step. -/
theorem Sys.run_waiterSteps_red_green (p : TrafficLightPhase) (n : Nat) :
    Sys.run { tl := { _currentPhase := p,
                      _queue := { _queue := [TrafficLightPhase.red, TrafficLightPhase.green] } },
              waiter := WaiterStatus.waiting } (Sys.waiterSteps (n + 2))
      = { tl := { _currentPhase := p, _queue := { _queue := [] } },
          waiter := WaiterStatus.returned } := by
  rw [Sys.waiterSteps_succ, Sys.run_cons]
  simpa [Sys.step, TrafficLight.queueReceive_cons] using Sys.run_waiterSteps_green p n

/-- A pending call facing a single red consumes it and stays pending. -/
theorem Sys.run_waiterSteps_red (p : TrafficLightPhase) (n : Nat) :
    Sys.run { tl := { _currentPhase := p, _queue := { _queue := [TrafficLightPhase.red] } },
              waiter := WaiterStatus.waiting } (Sys.waiterSteps (n + 1))
      = { tl := { _currentPhase := p, _queue := { _queue := [] } },
          waiter := WaiterStatus.waiting } := by
  rw [Sys.waiterSteps_succ, Sys.run_cons]
  simpa [Sys.step, TrafficLight.queueReceive_cons] using Sys.run_waiterSteps_empty p n

/-- C6 (green on return): a `waitForGreen` call started on a traffic light
whose channel is empty (in particular on the new one) is pending as long as
no toggle happens, whatever number `a` of steps it is given.  With phase red
it returns at its next step after one toggle; with phase green it is still
pending after the first toggle (given any number `b` of steps) and returns
after the second one, once it has been given two steps.  At the return,
before any further toggle, `getCurrentPhase` is green and the channel is
empty. -/
theorem green_on_return (tl : TrafficLight) (he : tl._queue._queue = []) (a b c : Nat) :
    (Sys.run (Sys.start tl) (Sys.waiterSteps a)).waiter = WaiterStatus.waiting
    ∧ (tl._currentPhase = TrafficLightPhase.red →
        Sys.run (Sys.start tl)
            (Sys.waiterSteps a ++ [Action.toggle] ++ Sys.waiterSteps (c + 1))
          = { tl := { _currentPhase := TrafficLightPhase.green, _queue := { _queue := [] } },
              waiter := WaiterStatus.returned })
    ∧ (tl._currentPhase = TrafficLightPhase.green →
        (Sys.run (Sys.start tl)
            (Sys.waiterSteps a ++ [Action.toggle] ++ Sys.waiterSteps b)).waiter
          = WaiterStatus.waiting
        ∧ Sys.run (Sys.start tl)
            (Sys.waiterSteps a ++ [Action.toggle] ++ Sys.waiterSteps b
              ++ [Action.toggle] ++ Sys.waiterSteps (c + 2))
          = { tl := { _currentPhase := TrafficLightPhase.green, _queue := { _queue := [] } },
              waiter := WaiterStatus.returned })
    ∧ (TrafficLight.getCurrentPhase
        { _currentPhase := TrafficLightPhase.green, _queue := { _queue := [] } }).1
        = TrafficLightPhase.green := by
  rcases tl with ⟨p, ⟨q⟩⟩
  simp only at he
  subst he
  refine ⟨?_, ?_, ?_, rfl⟩
  · simp [Sys.start, Sys.run_waiterSteps_empty]
  · intro hp
    simp only at hp
    subst hp
    rw [Sys.run_append, Sys.run_append, Sys.start, Sys.run_waiterSteps_empty]
    exact Sys.run_waiterSteps_green TrafficLightPhase.green c
  · intro hp
    simp only at hp
    subst hp
    have h1 : Sys.run (Sys.start { _currentPhase := TrafficLightPhase.green,
                                   _queue := { _queue := [] } })
          (Sys.waiterSteps a ++ [Action.toggle])
        = { tl := { _currentPhase := TrafficLightPhase.red,
                    _queue := { _queue := [TrafficLightPhase.red] } },
            waiter := WaiterStatus.waiting } := by
      rw [Sys.run_append, Sys.start, Sys.run_waiterSteps_empty]
      rfl
    cases b with
    | zero =>
      constructor
      · rw [Sys.run_append, h1]; rfl
      · rw [Sys.run_append, Sys.run_append, Sys.run_append, h1]
        exact Sys.run_waiterSteps_red_green TrafficLightPhase.green c
    | succ b =>
      constructor
      · rw [Sys.run_append, h1, Sys.run_waiterSteps_red]
      · rw [Sys.run_append, Sys.run_append, Sys.run_append, h1, Sys.run_waiterSteps_red]
        exact Sys.run_waiterSteps_green TrafficLightPhase.green (c + 1)

/-- The scenario of C6: a new traffic light, a `waitForGreen` call that gets
two steps before the first toggle and one after it. -/
theorem green_on_return_witness :
    TrafficLight.new._queue._queue = []
    ∧ Sys.run (Sys.start TrafficLight.new)
        (Sys.waiterSteps 2 ++ [Action.toggle] ++ Sys.waiterSteps (0 + 1))
      = { tl := { _currentPhase := TrafficLightPhase.green, _queue := { _queue := [] } },
          waiter := WaiterStatus.returned } :=
  ⟨rfl, (green_on_return TrafficLight.new rfl 2 0 0).2.1 rfl⟩

/-! ## The guard of the background loop -/

theorem TrafficLight.toggleStep_ne (tl : TrafficLight) : TrafficLight.toggleStep tl ≠ tl := by
  rcases tl with ⟨p, q⟩
  cases p <;> simp [TrafficLight.toggleStep, TrafficLight.stdMove]

/-- What the guard does: the block is skipped exactly when the tick count is
less than the number of milliseconds drawn; skipped, it leaves the object
unchanged; otherwise the phase is toggled once and sent once. -/
theorem TrafficLight.cycleIteration_guard (cycle_duration elapsedCount : Int)
    (tl : TrafficLight) :
    (elapsedCount < cycle_duration →
      TrafficLight.cycleIteration cycle_duration elapsedCount tl = tl)
    ∧ (¬ elapsedCount < cycle_duration →
      TrafficLight.cycleIteration cycle_duration elapsedCount tl = TrafficLight.toggleStep tl
      ∧ (TrafficLight.toggleStep tl)._currentPhase ≠ tl._currentPhase
      ∧ (TrafficLight.toggleStep tl)._queue._queue
          = tl._queue._queue ++ [(TrafficLight.toggleStep tl)._currentPhase]) := by
  constructor
  · intro h
    have : ¬ elapsedCount ≥ cycle_duration := by omega
    simp [TrafficLight.cycleIteration, this]
  · intro h
    have : elapsedCount ≥ cycle_duration := by omega
    refine ⟨by simp [TrafficLight.cycleIteration, this], ?_, rfl⟩
    rcases tl with ⟨p, q⟩
    cases p <;> simp [TrafficLight.toggleStep, TrafficLight.stdMove]

/-- With a clock ticking once per millisecond the guard is the comparison of
the two durations. -/
theorem TrafficLight.cycleIteration_millisecond_ticks (cycle_duration elapsedCount : Int)
    (tl : TrafficLight) :
    (elapsedLessThanCycle 1 cycle_duration elapsedCount ↔
      TrafficLight.cycleIteration cycle_duration elapsedCount tl = tl) := by
  unfold elapsedLessThanCycle
  constructor
  · intro h
    exact (TrafficLight.cycleIteration_guard cycle_duration elapsedCount tl).1 (by omega)
  · intro h
    by_contra hlt
    have := ((TrafficLight.cycleIteration_guard cycle_duration elapsedCount tl).2
      (by omega)).1
    rw [h] at this
    exact TrafficLight.toggleStep_ne tl this.symm

/-- With a finer clock the guard lets through elapsed times shorter than the
cycle duration: `cycle_duration` ticks are less than `cycle_duration`
milliseconds, and the block runs. -/
theorem TrafficLight.cycleIteration_finer_ticks (ticksPerMs cycle_duration : Int)
    (ht : 2 ≤ ticksPerMs) (hd : 1 ≤ cycle_duration) (tl : TrafficLight) :
    elapsedLessThanCycle ticksPerMs cycle_duration cycle_duration
    ∧ TrafficLight.cycleIteration cycle_duration cycle_duration tl
        = TrafficLight.toggleStep tl := by
  constructor
  · unfold elapsedLessThanCycle
    nlinarith
  · simp [TrafficLight.cycleIteration]

/-- C8 (timing-anomaly skip) at a failing input: on a clock with nanosecond
ticks, a drawn duration of 4000 ms and a measured elapsed time of 3999 ms
(3999000000 ticks): the elapsed time is less than the cycle duration, yet the
guard holds and the iteration toggles and publishes. -/
theorem timing_guard_not_skipped :
    elapsedLessThanCycle 1000000 4000 3999000000
    ∧ TrafficLight.cycleIteration 4000 3999000000 TrafficLight.new
        = { _currentPhase := TrafficLightPhase.green
            _queue := { _queue := [TrafficLightPhase.green] } }
    ∧ TrafficLight.cycleIteration 4000 3999000000 TrafficLight.new ≠ TrafficLight.new := by
  refine ⟨by decide, by decide, by decide⟩

/-! ## Inter-toggle durations -/

theorem Timeline.iteration_toggles (ticksPerMs : Nat) (h : 1 ≤ ticksPerMs) (s : Timeline)
    (d : Nat) :
    (Timeline.iteration ticksPerMs s d).toggleTimes = s.toggleTimes ++ [s.now + d]
    ∧ (Timeline.iteration ticksPerMs s d).now = s.now + d + 1 := by
  have h1 : (1 : Int) ≤ (ticksPerMs : Int) := by exact_mod_cast h
  have h2 : (0 : Int) ≤ (d : Int) := Int.ofNat_nonneg d
  have h3 : (d : Int) ≤ (d : Int) * (ticksPerMs : Int) := by nlinarith
  simp [Timeline.iteration, h3]

theorem Timeline.foldl_toggleTimes (ticksPerMs : Nat) (h : 1 ≤ ticksPerMs)
    (draws : List Nat) (s : Timeline) :
    (draws.foldl (Timeline.iteration ticksPerMs) s).toggleTimes
      = s.toggleTimes ++ Timeline.nominalToggleTimes s.now draws := by
  induction draws generalizing s with
  | nil => simp [Timeline.nominalToggleTimes]
  | cons d ds ih =>
    obtain ⟨h1, h2⟩ := Timeline.iteration_toggles ticksPerMs h s d
    rw [List.foldl_cons, ih, h1, h2]
    simp [Timeline.nominalToggleTimes]

theorem Timeline.gaps_nominal (t : Nat) (ds : List Nat) :
    Timeline.gaps (t :: Timeline.nominalToggleTimes (t + 1) ds) = ds.map (· + 1) := by
  induction ds generalizing t with
  | nil => simp [Timeline.nominalToggleTimes, Timeline.gaps]
  | cons d ds ih =>
    simp only [Timeline.nominalToggleTimes, Timeline.gaps, List.map_cons]
    rw [ih]
    congr 1
    omega

/-- The claim C9 as stated fails: after a toggle, a drawn duration of
6000 ms puts the next toggle 6001 ms later. -/
theorem inter_toggle_bound_counterexample :
    ¬ (∀ (ticksPerMs : Nat) (draws : List Nat), 1 ≤ ticksPerMs →
        (∀ d ∈ draws, 4000 ≤ d ∧ d ≤ 6000) →
        ∀ g ∈ Timeline.interToggleDurations ticksPerMs draws, 4000 ≤ g ∧ g ≤ 6000) := by
  intro h
  have h2 := h 1000000 [4000, 6000] (by decide) (by decide) 6001 (by decide)
  omega

/-- C9 (timing bound, amended): with a clock ticking at least once per
millisecond every iteration toggles, each inter-toggle duration is the drawn
cycle duration of the later iteration plus the pause of one millisecond, and
so, the durations being drawn from [4000, 6000], it lies in [4001, 6001]. -/
theorem inter_toggle_bound (ticksPerMs : Nat) (ht : 1 ≤ ticksPerMs) (draws : List Nat)
    (hd : ∀ d ∈ draws, 4000 ≤ d ∧ d ≤ 6000) :
    Timeline.interToggleDurations ticksPerMs draws = draws.tail.map (· + 1)
    ∧ ∀ g ∈ Timeline.interToggleDurations ticksPerMs draws, 4001 ≤ g ∧ g ≤ 6001 := by
  have heq : Timeline.interToggleDurations ticksPerMs draws = draws.tail.map (· + 1) := by
    unfold Timeline.interToggleDurations Timeline.run
    rw [Timeline.foldl_toggleTimes ticksPerMs ht]
    cases draws with
    | nil => simp [Timeline.init, Timeline.nominalToggleTimes, Timeline.gaps]
    | cons d ds =>
      simp only [Timeline.init, List.nil_append, Timeline.nominalToggleTimes, List.tail_cons]
      exact Timeline.gaps_nominal (0 + d) ds
  refine ⟨heq, ?_⟩
  intro g hg
  rw [heq] at hg
  obtain ⟨d, hdmem, rfl⟩ := List.mem_map.mp hg
  have := hd d (List.mem_of_mem_tail hdmem)
  omega

/-- A run of C9: three drawn durations on a clock with nanosecond ticks. -/
theorem inter_toggle_bound_witness :
    Timeline.interToggleDurations 1000000 [4000, 6000, 5000] = [6001, 5001] :=
  (inter_toggle_bound 1000000 (by decide) [4000, 6000, 5000] (by decide)).1

/-! ## Lock order -/

theorem LockEvent.acquiredWhileHeld_append (outer inner : Mutex) (t1 t2 : List LockEvent)
    (held : List Mutex) :
    LockEvent.acquiredWhileHeld outer inner held (t1 ++ t2)
      = (LockEvent.acquiredWhileHeld outer inner held t1
          || LockEvent.acquiredWhileHeld outer inner
              (LockEvent.holdsAfterTrace held t1) t2) := by
  induction t1 generalizing held with
  | nil => simp [LockEvent.acquiredWhileHeld, LockEvent.holdsAfterTrace]
  | cons ev rest ih =>
    simp [LockEvent.acquiredWhileHeld, ih, LockEvent.holdsAfterTrace, Bool.or_assoc]

theorem LockEvent.holdsAfterTrace_append (t1 t2 : List LockEvent) (held : List Mutex) :
    LockEvent.holdsAfterTrace held (t1 ++ t2)
      = LockEvent.holdsAfterTrace (LockEvent.holdsAfterTrace held t1) t2 := by
  simp [LockEvent.holdsAfterTrace, List.foldl_append]

/-- The waiting rounds and the final release of `receive`, entered with the
channel's mutex held: no acquisition under another mutex, nothing held at
the end. -/
theorem LockEvent.receive_rounds (outer inner : Mutex) (waits : Nat) :
    LockEvent.acquiredWhileHeld outer inner [Mutex.channel]
        ((List.replicate waits
            [LockEvent.release Mutex.channel, LockEvent.acquire Mutex.channel]).flatten
          ++ [LockEvent.release Mutex.channel]) = false
    ∧ LockEvent.holdsAfterTrace [Mutex.channel]
        ((List.replicate waits
            [LockEvent.release Mutex.channel, LockEvent.acquire Mutex.channel]).flatten
          ++ [LockEvent.release Mutex.channel]) = [] := by
  induction waits with
  | zero =>
    simp [LockEvent.acquiredWhileHeld, LockEvent.holdsAfterTrace, LockEvent.holdsAfter]
  | succ n ih =>
    obtain ⟨h1, h2⟩ := ih
    simp only [LockEvent.holdsAfterTrace] at h2 ⊢
    have he : [Mutex.channel].erase Mutex.channel = [] := by decide
    simp only [List.replicate_succ, List.flatten_cons, List.cons_append, List.nil_append,
      LockEvent.acquiredWhileHeld, List.foldl_cons, LockEvent.holdsAfter, he]
    simp [h1, h2]

theorem LockEvent.receiveTrace_facts (outer inner : Mutex) (waits : Nat) :
    LockEvent.acquiredWhileHeld outer inner [] (LockEvent.receiveTrace waits) = false
    ∧ LockEvent.holdsAfterTrace [] (LockEvent.receiveTrace waits) = [] := by
  obtain ⟨h1, h2⟩ := LockEvent.receive_rounds outer inner waits
  simp only [LockEvent.holdsAfterTrace] at h2
  simp [LockEvent.receiveTrace, LockEvent.acquiredWhileHeld, LockEvent.holdsAfterTrace,
    LockEvent.holdsAfter, h1, h2]

theorem LockEvent.waitForGreen_facts (outer inner : Mutex) (waits : List Nat) :
    LockEvent.acquiredWhileHeld outer inner []
        (LockEvent.ofOperation (Operation.waitForGreen waits)) = false
    ∧ LockEvent.holdsAfterTrace []
        (LockEvent.ofOperation (Operation.waitForGreen waits)) = [] := by
  simp only [LockEvent.ofOperation]
  induction waits with
  | nil => simp [LockEvent.acquiredWhileHeld, LockEvent.holdsAfterTrace]
  | cons w ws ih =>
    obtain ⟨h1, h2⟩ := LockEvent.receiveTrace_facts outer inner w
    simp only [List.map_cons, List.flatten_cons, LockEvent.acquiredWhileHeld_append,
      LockEvent.holdsAfterTrace_append, h1, h2, ih]
    simp

/-- What one operation does to the locks: it ends holding none, never
acquires the controller's mutex under the channel's, and acquires the
channel's under the controller's exactly when it is an iteration of the
background loop whose guard holds. -/
theorem LockEvent.ofOperation_facts (op : Operation) :
    LockEvent.holdsAfterTrace [] (LockEvent.ofOperation op) = []
    ∧ LockEvent.acquiredWhileHeld Mutex.channel Mutex.controller []
        (LockEvent.ofOperation op) = false
    ∧ (LockEvent.acquiredWhileHeld Mutex.controller Mutex.channel []
        (LockEvent.ofOperation op) = true
        ↔ ∃ d e : Int, op = Operation.cycleIteration d e ∧ e ≥ d) := by
  cases op with
  | cycleIteration d e =>
    by_cases hg : e ≥ d
    · simp only [LockEvent.ofOperation, hg, if_true]
      refine ⟨by decide, by decide, ?_⟩
      constructor
      · intro _
        exact ⟨d, e, rfl, hg⟩
      · intro _
        decide
    · simp only [LockEvent.ofOperation, hg, if_false]
      refine ⟨rfl, rfl, ?_⟩
      constructor
      · intro h
        simp [LockEvent.acquiredWhileHeld] at h
      · rintro ⟨d', e', heq, hge⟩
        cases heq
        exact absurd hge hg
  | waitForGreen waits =>
    refine ⟨(LockEvent.waitForGreen_facts Mutex.channel Mutex.controller waits).2,
      (LockEvent.waitForGreen_facts Mutex.channel Mutex.controller waits).1, ?_⟩
    rw [(LockEvent.waitForGreen_facts Mutex.controller Mutex.channel waits).1]
    simp
  | getCurrentPhase =>
    simp [LockEvent.ofOperation, LockEvent.acquiredWhileHeld, LockEvent.holdsAfterTrace]

theorem LockEvent.threadTrace_cons (op : Operation) (ops : List Operation) :
    LockEvent.threadTrace (op :: ops)
      = LockEvent.ofOperation op ++ LockEvent.threadTrace ops := by
  simp [LockEvent.threadTrace]

/-- The claim C10 as stated fails: an iteration of the background loop whose
guard holds calls `send`, which acquires the channel's mutex, while it holds
the controller's mutex. -/
theorem lock_separation_counterexample :
    ¬ (∀ ops : List Operation,
        LockEvent.acquiredWhileHeld Mutex.controller Mutex.channel []
            (LockEvent.threadTrace ops) = false
        ∧ LockEvent.acquiredWhileHeld Mutex.channel Mutex.controller []
            (LockEvent.threadTrace ops) = false) := by
  intro h
  have h2 := (h [Operation.cycleIteration 4000 4000000000]).1
  exact absurd h2 (by decide)

/-- C10 (lock separation, amended): in the lock trace of a thread running
any operations of the traffic light, the controller's mutex is never acquired
while the channel's mutex is held; the channel's mutex is acquired while the
controller's is held exactly when the thread runs an iteration of the
background loop whose guard holds. -/
theorem lock_order (ops : List Operation) :
    LockEvent.acquiredWhileHeld Mutex.channel Mutex.controller []
        (LockEvent.threadTrace ops) = false
    ∧ (LockEvent.acquiredWhileHeld Mutex.controller Mutex.channel []
        (LockEvent.threadTrace ops) = true
        ↔ ∃ d e : Int, Operation.cycleIteration d e ∈ ops ∧ e ≥ d)
    ∧ LockEvent.holdsAfterTrace [] (LockEvent.threadTrace ops) = [] := by
  induction ops with
  | nil =>
    simp [LockEvent.threadTrace, LockEvent.acquiredWhileHeld, LockEvent.holdsAfterTrace]
  | cons op ops ih =>
    obtain ⟨h1, h2, h3⟩ := LockEvent.ofOperation_facts op
    obtain ⟨i1, i2, i3⟩ := ih
    rw [LockEvent.threadTrace_cons]
    refine ⟨?_, ?_, ?_⟩
    · rw [LockEvent.acquiredWhileHeld_append, h1, h2, i1]
      rfl
    · rw [LockEvent.acquiredWhileHeld_append, h1, Bool.or_eq_true, h3, i2]
      constructor
      · rintro (⟨d, e, rfl, hge⟩ | ⟨d, e, hmem, hge⟩)
        · exact ⟨d, e, List.mem_cons_self _ _, hge⟩
        · exact ⟨d, e, List.mem_cons_of_mem _ hmem, hge⟩
      · rintro ⟨d, e, hmem, hge⟩
        rcases List.mem_cons.mp hmem with heq | hmem'
        · exact Or.inl ⟨d, e, heq.symm, hge⟩
        · exact Or.inr ⟨d, e, hmem', hge⟩
    · rw [LockEvent.holdsAfterTrace_append, h1, i3]

end TrafficSim
